import Mathlib

/-!
Verification of the python-unitex glue layer (`unitex/processor.py`,
`unitex/io.py`) against its natural-language specification.

Paths and file contents are modelled as `List Char`; the Python standard
library path helpers used by the source (`os.path.split`,
`os.path.splitext`, `os.path.join` in their POSIX form) are embedded
faithfully below.  External engine calls and filesystem effects are
modelled as explicit event traces.
-/

namespace Unitex

/-- POSIX `os.path.split`: split a path at the final slash; the head keeps
its trailing slashes stripped unless it consists only of slashes. -/
def pysplit (p : List Char) : List Char × List Char :=
  let tailRev := p.reverse.takeWhile (fun c => c != '/')
  let head := (p.reverse.drop tailRev.length).reverse
  if head.any (fun c => c != '/') then
    ((head.reverse.dropWhile (fun c => c == '/')).reverse, tailRev.reverse)
  else
    (head, tailRev.reverse)

/-- POSIX `os.path.splitext`: split off the extension at the final dot that
follows the final slash, unless every character between them is a dot. -/
def pysplitext (p : List Char) : List Char × List Char :=
  let extRev := p.reverse.takeWhile (fun c => c != '.' && c != '/')
  let rest := p.reverse.drop extRev.length
  if rest.head? = some '.' then
    if (rest.tail.takeWhile (fun c => c != '/')).any (fun c => c != '.') then
      (rest.tail.reverse, '.' :: extRev.reverse)
    else (p, [])
  else (p, [])

/-- POSIX `os.path.join` restricted to two components, as used by the
source (`os.path.join(directory, filename)`). -/
def pyjoin (a b : List Char) : List Char :=
  if b.head? = some '/' then b
  else if a = [] ∨ a.getLast? = some '/' then a ++ b
  else a ++ '/' :: b

/-- The three session paths derived by `UnitexProcessor.open`
(processor.py lines 319-324): the original text path, the normalized
text path (extension replaced by `.snt`) and the working directory
(base name suffixed with `_snt`). -/
structure OpenPaths where
  txt : List Char
  snt : List Char
  wdir : List Char
deriving DecidableEq, Repr

/-- Path derivation performed by `UnitexProcessor.open`:
`directory, filename = os.path.split(path)`;
`name, extension = os.path.splitext(filename)`;
`snt = os.path.join(directory, name + ".snt")`;
`dir = os.path.join(directory, name + "_snt")`. -/
def openDerive (path : List Char) : OpenPaths :=
  let sp := pysplit path
  let se := pysplitext sp.2
  { txt := path
    snt := pyjoin sp.1 (se.1 ++ (".snt").toList)
    wdir := pyjoin sp.1 (se.1 ++ ("_snt").toList) }

/-- Modelled from the spec: the `UnitexConstants.MATCH_MODE_LONGEST`
constant (module `unitex/__init__.py`, not present under src/); the spec
fixes the recognized match-mode set as {longest, shortest}. -/
def MATCH_MODE_LONGEST : List Char := ("longest").toList

/-- Modelled from the spec: the `UnitexConstants.MATCH_MODE_SHORTEST`
constant (module `unitex/__init__.py`, not present under src/). -/
def MATCH_MODE_SHORTEST : List Char := ("shortest").toList

/-- Modelled from the spec: the `UnitexConstants.OUTPUT_MODE_IGNORE`
constant (module `unitex/__init__.py`, not present under src/); the spec
fixes the recognized output-mode set as {ignore, merge, replace}. -/
def OUTPUT_MODE_IGNORE : List Char := ("ignore").toList

/-- Modelled from the spec: the `UnitexConstants.OUTPUT_MODE_MERGE`
constant (module `unitex/__init__.py`, not present under src/). -/
def OUTPUT_MODE_MERGE : List Char := ("merge").toList

/-- Modelled from the spec: the `UnitexConstants.OUTPUT_MODE_REPLACE`
constant (module `unitex/__init__.py`, not present under src/). -/
def OUTPUT_MODE_REPLACE : List Char := ("replace").toList

/-- Modelled from the spec: the `UnitexConstants.VFS_PREFIX` marker
(module `unitex/__init__.py`, not present under src/); the spec fixes
only that it is a reserved fixed string distinguishing virtual paths,
and the two-character marker of the Unitex toolkit is taken as the
representative value. -/
def vfsMark : List Char := ("$:").toList

/-- Python `\s` for str patterns, which coincides with the
`str.isspace()` set: the Unicode whitespace code points 09-0d, 1c-1f,
20, 85, a0, 1680, 2000-200a, 2028, 2029, 202f, 205f and 3000. -/
def pySpace (c : Char) : Bool :=
  (0x09 ≤ c.toNat && c.toNat ≤ 0x0d) ||
  (0x1c ≤ c.toNat && c.toNat ≤ 0x20) ||
  c.toNat == 0x85 || c.toNat == 0xa0 || c.toNat == 0x1680 ||
  (0x2000 ≤ c.toNat && c.toNat ≤ 0x200a) ||
  c.toNat == 0x2028 || c.toNat == 0x2029 || c.toNat == 0x202f ||
  c.toNat == 0x205f || c.toNat == 0x3000

/-- Python `str.rstrip()` with no argument: remove trailing characters
of the same Unicode whitespace set. -/
def pyRstrip (l : List Char) : List Char :=
  (l.reverse.dropWhile pySpace).reverse

/-- Attempt of the regex `([^\s]+) ([^\s]+)(?: (.*))?` at one fixed start
position (processor.py line 462): greedy nonspace run, a literal space,
a second greedy nonspace run, and an optional literal space followed by
the greedy remainder of the line. -/
def indMatch (l : List Char) : Option (List Char × List Char × Option (List Char)) :=
  if l.head?.elim true pySpace then none
  else
    let g1 := l.takeWhile (fun x => !(pySpace x))
    let r1 := l.dropWhile (fun x => !(pySpace x))
    if r1.head? ≠ some ' ' then none
    else
      let t1 := r1.tail
      if t1.head?.elim true pySpace then none
      else
        let g2 := t1.takeWhile (fun x => !(pySpace x))
        let r3 := t1.dropWhile (fun x => !(pySpace x))
        if r3.head? = some ' ' then some (g1, g2, some r3.tail)
        else some (g1, g2, none)

/-- `re.search` with the index-line pattern: the leftmost position where
`indMatch` succeeds. -/
def searchInd (l : List Char) : Option (List Char × List Char × Option (List Char)) :=
  match l with
  | [] => none
  | _ :: rest => (indMatch l).elim (searchInd rest) some

/-- One record yielded by `UnitexProcessor.iter` (processor.py lines
473-476): an offset pair and the matched text (Python `None` when the
third regex group is absent; the empty string in ignore mode). -/
structure MatchRec where
  offsets : List Char × List Char
  matched : Option (List Char)
deriving DecidableEq, Repr

/-- The per-line loop of `UnitexProcessor.iter` (processor.py lines
465-476): right-strip the line, skip it when blank, otherwise search the
index pattern and yield a record; a line where the search fails makes
the generator raise (`match.groups()` on `None`), modelled as `none`. -/
def iterLines (output_mode : List Char) : List (List Char) → Option (List MatchRec)
  | [] => some []
  | line :: rest =>
    let l := pyRstrip line
    if l = [] then iterLines output_mode rest
    else
      match searchInd l with
      | none => none
      | some (g1, g2, g3) =>
        match iterLines output_mode rest with
        | none => none
        | some rs =>
            some ((if output_mode = OUTPUT_MODE_IGNORE then
                    { offsets := (g1, g2), matched := some [] }
                  else
                    { offsets := (g1, g2), matched := g3 }) :: rs)

/-- `UnitexProcessor.iter` applied to the contents of an index file
(processor.py lines 457-476): split on newlines, skip the first (header)
line, and process the remaining lines in order. -/
def iterMatches (output_mode content : List Char) : Option (List MatchRec) :=
  iterLines output_mode ((content.splitOn '\n').drop 1)

/-- The substitution rules applied by `escape` (processor.py lines
25-26): the single rule replacing the character `&` by `&amp;`. -/
def RULES : List (Char × List Char) := [('&', ("&amp;").toList)]

/-- `re.sub` for a single-character literal pattern: every occurrence of
the pattern character is replaced by the substitute string. -/
def pySubChar (pat : Char) (sub : List Char) (l : List Char) : List Char :=
  l.flatMap (fun c => if c = pat then sub else [c])

/-- `escape` (processor.py lines 28-31): fold the substitution rules
over the sequence.  This module-level definition shadows the
`xml.sax.saxutils` import, so only the single `&` rule applies. -/
def escape (s : List Char) : List Char :=
  RULES.foldl (fun acc r => pySubChar r.1 r.2 acc) s

/-- Refined from the spec wording, for comparison with `escape`: only
the character `&` is replaced (by `&amp;`); no other character is
escaped. -/
def escapeAmpSpec (s : List Char) : List Char :=
  s.flatMap (fun c => if c = '&' then ("&amp;").toList else [c])

/-- A file, directory or external-engine operation performed through the
Virtual File Gateway (io.py) or the standard library. -/
inductive FileOp where
  | copyFile (src dst : List Char)
  | removeFile (p : List Char)
  | makeDir (p : List Char)
  | removeDir (p : List Char)
  | listDir (p : List Char)
  | checkDisk (p : List Char)
  | writeFile (p : List Char) (content : List Char)
  | extCall (tool : List Char)
deriving DecidableEq, Repr

/-- The xml=True tail of `UnitexProcessor.tag` (processor.py lines
517-539), given the session working directory, the virtualization flag,
the grammar and output paths and the merged concordance content read
back from the temporary file: the trace of the written output document
followed by the removal of the temporary merge file. -/
def tagXmlRun (virt : Bool) (wdir grammar outputPath mergedContent : List Char) :
    List FileOp :=
  let temp := (if virt then vfsMark else []) ++
    pyjoin wdir (("concord-merge-temp.txt").toList)
  [FileOp.writeFile outputPath
     ((("<?xml version=\x271.0\x27 encoding=\x27UTF-8\x27?>\n").toList) ++
      (("<TAGFILE query=\x27").toList) ++ grammar ++ (("\x27>\n").toList) ++
      escape mergedContent ++
      (("</TAGFILE>\n").toList)),
   FileOp.removeFile temp]

/-- Refined from the spec wording, for comparison with `tagXmlRun`: the
fixed XML declaration, the `TAGFILE` element with the grammar path
substituted into the query attribute, the body with only `&` escaped,
and the closing tag. -/
def tagXmlSpecDoc (grammar body : List Char) : List Char :=
  (("<?xml version=\x271.0\x27 encoding=\x27UTF-8\x27?>\n").toList) ++
  (("<TAGFILE query=\x27").toList) ++ grammar ++ (("\x27>\n").toList) ++
  escapeAmpSpec body ++
  (("</TAGFILE>\n").toList)

/-- The two backing stores seen by the Gateway: disk existence and
virtual directory listing (native `_unitex` module behaviour, abstract). -/
structure Gateway where
  diskExists : List Char → Bool
  lsDir : List Char → List (List Char)

/-- `exists` (io.py lines 134-149): disk existence check for paths
without the virtual marker, membership in `ls(path)` for the others. -/
def existsPath (gw : Gateway) (p : List Char) : Bool :=
  if (vfsMark.isPrefixOf p) = false then gw.diskExists p
  else decide (p ∈ gw.lsDir p)

/-- The internal state of a `UnitexFile` handle (io.py lines 164-168). -/
structure UFile where
  path : Option (List Char)
  mode : Option (List Char)
  useBom : Bool
deriving DecidableEq, Repr

/-- The `UnitexException` usage errors raised by `UnitexFile`. -/
inductive UFileErr where
  | alreadyOpen
  | noFile
  | openedInReadMode
  | openedInWriteMode
deriving DecidableEq, Repr

/-- The write effects of `UnitexFile.write`: whole-file write (with or
without byte-order mark) in mode `w`, append in mode `a`. -/
inductive WriteEff where
  | overwrite (bom : Bool)
  | appendEnd
deriving DecidableEq, Repr

/-- The read effects of `UnitexFile.read`: text read in mode `r`,
binary read in mode `b`. -/
inductive ReadEff where
  | readText
  | readBinary
deriving DecidableEq, Repr

/-- `UnitexFile.open` (io.py lines 170-203): fails if a file is already
open, otherwise records the path and the mode (default `r`). -/
def ufOpen (f : UFile) (file : List Char) (mode : Option (List Char)) (use_bom : Bool) :
    Except UFileErr UFile :=
  if f.path ≠ none then .error .alreadyOpen
  else .ok { path := some file, mode := some (mode.getD (("r").toList)), useBom := use_bom }

/-- `UnitexFile.close` (io.py lines 205-213): fails if no file is open,
otherwise resets the path and mode. -/
def ufClose (f : UFile) : Except UFileErr UFile :=
  if f.path = none then .error .noFile
  else .ok { path := none, mode := none, useBom := f.useBom }

/-- `UnitexFile.write` (io.py lines 215-235): fails if no file is open
or the mode is neither `w` nor `a`; otherwise writes or appends. -/
def ufWrite (f : UFile) : Except UFileErr WriteEff :=
  if f.path = none then .error .noFile
  else if ¬(f.mode = some (("w").toList) ∨ f.mode = some (("a").toList)) then
    .error .openedInReadMode
  else if f.mode = some (("w").toList) then .ok (.overwrite f.useBom)
  else .ok .appendEnd

/-- `UnitexFile.read` (io.py lines 237-256): fails if no file is open or
the mode is neither `r` nor `b`; otherwise reads text or binary. -/
def ufRead (f : UFile) : Except UFileErr ReadEff :=
  if f.path = none then .error .noFile
  else if ¬(f.mode = some (("r").toList) ∨ f.mode = some (("b").toList)) then
    .error .openedInWriteMode
  else if f.mode = some (("r").toList) then .ok .readText
  else .ok .readBinary

instance {ε α : Type} [DecidableEq ε] [DecidableEq α] : DecidableEq (Except ε α) := by
  intro x y
  cases x with
  | ok a =>
      cases y with
      | ok b =>
          exact if h : a = b then isTrue (by rw [h]) else isFalse (fun hh => h (by injection hh))
      | error b => exact isFalse (fun hh => Except.noConfusion hh)
  | error a =>
      cases y with
      | ok b => exact isFalse (fun hh => Except.noConfusion hh)
      | error b =>
          exact if h : a = b then isTrue (by rw [h]) else isFalse (fun hh => h (by injection hh))

/-- The session state of `UnitexProcessor` (processor.py lines 46-48):
the staged original text path, normalized text path and working
directory, each `None` outside a session. -/
structure PState where
  txt : Option (List Char)
  snt : Option (List Char)
  wdir : Option (List Char)
deriving DecidableEq, Repr

/-- The resource section of the configuration consumed by the pipeline
stages (alphabet, sentence grammar, replace grammar, dictionaries). -/
structure Resources where
  alphabet : Option (List Char)
  sentence : Option (List Char)
  replaceGrammar : Option (List Char)
  dictionaries : List (List Char)
deriving DecidableEq, Repr

/-- Success flags of the external engine invocations made during `open`
(the native calls return a boolean; this layer treats `False` as fatal). -/
structure Engine where
  normalizeOk : Bool
  segmentOk : Bool
  replaceOk : Bool
  tokenizeOk : Bool
  dicoOk : Bool
deriving DecidableEq, Repr

/-- `UnitexProcessor._segment` (processor.py lines 141-157): requires
the sentence grammar and the alphabet before invoking fst2txt. -/
def stageSegment (res : Resources) (eng : Engine) :
    List FileOp × Except (List Char) Unit :=
  match res.sentence with
  | none => ([], .error (("Unable to segment text. No sentence grammar provided.").toList))
  | some _ =>
    match res.alphabet with
    | none => ([], .error (("Unable to segment text. No alphabet file provided.").toList))
    | some _ =>
      ([FileOp.extCall (("fst2txt").toList)],
       if eng.segmentOk then .ok () else .error (("Text segmentation failed!").toList))

/-- `UnitexProcessor._replace` (processor.py lines 159-175): requires
the replace grammar and the alphabet before invoking fst2txt. -/
def stageReplace (res : Resources) (eng : Engine) :
    List FileOp × Except (List Char) Unit :=
  match res.replaceGrammar with
  | none => ([], .error (("Unable to normalize text. No replace grammar provided.").toList))
  | some _ =>
    match res.alphabet with
    | none => ([], .error (("Unable to normalize text. No alphabet file provided.").toList))
    | some _ =>
      ([FileOp.extCall (("fst2txt").toList)],
       if eng.replaceOk then .ok () else .error (("Text normalization failed!").toList))

/-- `UnitexProcessor._tokenize` (processor.py lines 177-186): requires
the alphabet before invoking tokenize. -/
def stageTokenize (res : Resources) (eng : Engine) :
    List FileOp × Except (List Char) Unit :=
  match res.alphabet with
  | none => ([], .error (("Unable to tokenize text. No alphabet file provided.").toList))
  | some _ =>
    ([FileOp.extCall (("tokenize").toList)],
     if eng.tokenizeOk then .ok () else .error (("Text tokenization failed!").toList))

/-- `UnitexProcessor._lexicalize` (processor.py lines 188-201): requires
at least one dictionary and the alphabet before invoking dico. -/
def stageLex (res : Resources) (eng : Engine) :
    List FileOp × Except (List Char) Unit :=
  if res.dictionaries = [] then
    ([], .error (("Unable to lexicalize text. No dictionaries provided.").toList))
  else
    match res.alphabet with
    | none => ([], .error (("Unable to tokenize text. No alphabet file provided.").toList))
    | some _ =>
      ([FileOp.extCall (("dico").toList)],
       if eng.dicoOk then .ok () else .error (("Text lexicalization failed!").toList))

/-- Sequential execution of pipeline stages with exception semantics: a
stage failure aborts the remaining stages, keeping the operations
performed up to and including the failing stage. -/
def runStages (base : List FileOp) :
    List (List FileOp × Except (List Char) Unit) → List FileOp × Except (List Char) Unit
  | [] => (base, .ok ())
  | s :: rest =>
    match s.2 with
    | .error e => (base ++ s.1, .error e)
    | .ok _ => runStages (base ++ s.1) rest

/-- The outcome of `UnitexProcessor.open`: the session state left in the
processor, the trace of performed operations, and the raised error if a
stage failed. -/
structure OpenOutcome where
  state : PState
  ops : List FileOp
  result : Except (List Char) Unit
deriving DecidableEq, Repr

/-- `UnitexProcessor.open` (processor.py lines 293-347): derive the
session paths; with virtualization, copy the original into the virtual
namespace and rewrite the stored text and normalized paths (the working
directory is not rewritten); check the working directory on disk and
create it there if absent; then always normalize, and run the optional
stages selected by `mode` (segmentation and replace skipped when
`tagged`).  The previous session state is never consulted.  The
pre-stage operations: the virtualizing copy, the disk existence check of
the working directory and its creation when absent. -/
def openOps0 (virt : Bool) (path : List Char) (dirOnDisk : Bool) : List FileOp :=
  (if virt then [FileOp.copyFile path (vfsMark ++ path)] else []) ++
  [FileOp.checkDisk ((openDerive path).wdir)] ++
  (if dirOnDisk then [] else [FileOp.makeDir ((openDerive path).wdir)])

/-- The pipeline stages selected by `open`: normalization always, then
the optional stages controlled by `mode` and `tagged` (processor.py
lines 336-347). -/
def openStages (res : Resources) (eng : Engine) (mode : List Char) (tagged : Bool) :
    List (List FileOp × Except (List Char) Unit) :=
  [([FileOp.extCall (("normalize").toList)],
    if eng.normalizeOk then (.ok () : Except (List Char) Unit)
    else .error (("Text normalization failed!").toList))] ++
  (if tagged = false ∧ 's' ∈ mode then [stageSegment res eng] else []) ++
  (if tagged = false ∧ 'r' ∈ mode then [stageReplace res eng] else []) ++
  (if 't' ∈ mode then [stageTokenize res eng] else []) ++
  (if 'l' ∈ mode then [stageLex res eng] else [])

def openRun (virt : Bool) (_prev : PState) (res : Resources) (eng : Engine)
    (path mode : List Char) (tagged : Bool) (dirOnDisk : Bool) : OpenOutcome :=
  let d := openDerive path
  let txt1 := if virt then vfsMark ++ d.txt else d.txt
  let snt1 := if virt then vfsMark ++ d.snt else d.snt
  let r := runStages (openOps0 virt path dirOnDisk) (openStages res eng mode tagged)
  ⟨⟨some txt1, some snt1, some d.wdir⟩, r.1, r.2⟩

/-- `UnitexProcessor._clean` (processor.py lines 118-132), run by
`close(clean=True)` (lines 370-371): with no open session, log and do
nothing; otherwise in virtualized mode list the virtual working
directory and remove each entry, then remove the normalized and
original virtual files; in non-virtualized mode remove only the
normalized file; finally remove the working directory.  (`rm` on a
`None` field cannot arise from a state produced by `open`; it is
rendered as removal of the empty path.) -/
def cleanRun (virt : Bool) (st : PState) (vfsEntries : List (List Char)) : List FileOp :=
  match st.txt with
  | none => []
  | some t =>
    (if virt then
      (match st.wdir with
       | some d => FileOp.listDir (vfsMark ++ d) :: vfsEntries.map FileOp.removeFile
       | none => []) ++
      [FileOp.removeFile (st.snt.getD []), FileOp.removeFile t]
     else [FileOp.removeFile (st.snt.getD [])]) ++
    [FileOp.removeDir (st.wdir.getD [])]

/-- The kinds of persistent resources tracked by the processor. -/
inductive ResKind where
  | grammar
  | dictionary
  | alphabet
deriving DecidableEq, Repr

/-- The native free operations of the persistence layer. -/
inductive FreeCall where
  | freeFst2 (h : List Char)
  | freeDict (h : List Char)
  | freeAlphabet (h : List Char)
deriving DecidableEq, Repr

/-- The persistence state of the processor: `None` when persistence is
disabled, otherwise the list of tracked (kind, handle) pairs. -/
structure ProcMem where
  persisted : Option (List (ResKind × List Char))
deriving DecidableEq, Repr

/-- The free operation matching a resource kind (the if/elif chain of
`_free`, processor.py lines 110-116). -/
def freeCallOf (k : ResKind) (h : List Char) : FreeCall :=
  match k with
  | .grammar => .freeFst2 h
  | .dictionary => .freeDict h
  | .alphabet => .freeAlphabet h

/-- `UnitexProcessor._free` (processor.py lines 106-116): return
immediately when nothing was persisted; otherwise emit one matching free
call per tracked handle, in order.  The tracked list is not cleared. -/
def freeRun (m : ProcMem) : List FreeCall × ProcMem :=
  match m.persisted with
  | none => ([], m)
  | some objs => (objs.map (fun o => freeCallOf o.1 o.2), m)

/-- `UnitexProcessor._locate` (processor.py lines 203-245): require the
alphabet, validate the match mode and the output mode, invoke the
external locate stage, and require the produced index file
(`concord.ind` under the working directory, virtual-marked when
virtualization is on). -/
def locateRun (virt : Bool) (res : Resources) (wdir match_mode output_mode : List Char)
    (locateOk indexOnFs : Bool) : List FileOp × Except (List Char) (List Char) :=
  match res.alphabet with
  | none => ([], .error (("Unable to locate pattern. No alphabet file provided.").toList))
  | some _ =>
    if ¬(match_mode = MATCH_MODE_LONGEST ∨ match_mode = MATCH_MODE_SHORTEST) then
      ([], .error (("Wrong value for the match_mode option.").toList))
    else if ¬(output_mode = OUTPUT_MODE_IGNORE ∨ output_mode = OUTPUT_MODE_MERGE ∨
              output_mode = OUTPUT_MODE_REPLACE) then
      ([], .error (("Wrong value for the output_mode option.").toList))
    else if locateOk = false then
      ([FileOp.extCall (("locate").toList)], .error (("Locate failed!").toList))
    else
      let index := (if virt then vfsMark else []) ++ pyjoin wdir (("concord.ind").toList)
      if indexOnFs = false then
        ([FileOp.extCall (("locate").toList)],
         .error (("Locate failed! No index produced.").toList))
      else ([FileOp.extCall (("locate").toList)], .ok index)

/-- The mode validation and locate call at the head of
`UnitexProcessor.iter` (processor.py lines 447-455): both modes are
checked before `_locate` is reached. -/
def iterLocate (virt : Bool) (res : Resources) (wdir match_mode output_mode : List Char)
    (locateOk indexOnFs : Bool) : List FileOp × Except (List Char) (List Char) :=
  if ¬(match_mode = MATCH_MODE_LONGEST ∨ match_mode = MATCH_MODE_SHORTEST) then
    ([], .error (("Invalid match mode").toList))
  else if ¬(output_mode = OUTPUT_MODE_MERGE ∨ output_mode = OUTPUT_MODE_IGNORE ∨
            output_mode = OUTPUT_MODE_REPLACE) then
    ([], .error (("Invalid output mode").toList))
  else locateRun virt res wdir match_mode output_mode locateOk indexOnFs

/-- The mode validation and locate call at the head of
`UnitexProcessor.tag` (processor.py lines 499-509): both modes are
checked before `_locate` is reached. -/
def tagLocate (virt : Bool) (res : Resources) (wdir match_mode output_mode : List Char)
    (locateOk indexOnFs : Bool) : List FileOp × Except (List Char) (List Char) :=
  if ¬(match_mode = MATCH_MODE_LONGEST ∨ match_mode = MATCH_MODE_SHORTEST) then
    ([], .error (("Invalid match mode").toList))
  else if ¬(output_mode = OUTPUT_MODE_IGNORE ∨ output_mode = OUTPUT_MODE_MERGE ∨
            output_mode = OUTPUT_MODE_REPLACE) then
    ([], .error (("Wrong value for the output_mode option.").toList))
  else locateRun virt res wdir match_mode output_mode locateOk indexOnFs

/-! Helper lemmas about `takeWhile` and `dropWhile` over concatenations. -/

theorem takeWhile_append_stop {α : Type} {p : α → Bool} {l₁ l₂ : List α} {c : α}
    (h1 : ∀ x ∈ l₁, p x = true) (hc : p c = false) :
    (l₁ ++ c :: l₂).takeWhile p = l₁ := by
  induction l₁ with
  | nil => simp [List.takeWhile_cons, hc]
  | cons a t ih =>
      have ha : p a = true := h1 a (by simp)
      simp only [List.cons_append, List.takeWhile_cons, ha, if_true]
      have := ih (fun x hx => h1 x (by simp [hx]))
      simp [this]

theorem dropWhile_append_stop {α : Type} {p : α → Bool} {l₁ l₂ : List α} {c : α}
    (h1 : ∀ x ∈ l₁, p x = true) (hc : p c = false) :
    (l₁ ++ c :: l₂).dropWhile p = c :: l₂ := by
  induction l₁ with
  | nil => simp [List.dropWhile_cons, hc]
  | cons a t ih =>
      have ha : p a = true := h1 a (by simp)
      simp only [List.cons_append, List.dropWhile_cons, ha, if_true]
      exact ih (fun x hx => h1 x (by simp [hx]))

theorem takeWhile_all {α : Type} {p : α → Bool} {l : List α}
    (h : ∀ x ∈ l, p x = true) : l.takeWhile p = l :=
  List.takeWhile_eq_self_iff.mpr h

theorem dropWhile_all {α : Type} {p : α → Bool} {l : List α}
    (h : ∀ x ∈ l, p x = true) : l.dropWhile p = [] := by
  induction l with
  | nil => rfl
  | cons a t ih =>
      have ha : p a = true := h a (by simp)
      simp only [List.dropWhile_cons, ha, if_true]
      exact ih (fun x hx => h x (by simp [hx]))

/-- The reversed tail kept by `pysplit` on `dir ++ "/" ++ rest` with
`rest` slash-free is `rest.reverse`. -/
theorem pysplit_tailRev (dir rest : List Char) (hrest : '/' ∉ rest) :
    (dir ++ '/' :: rest).reverse.takeWhile (fun c => c != '/') = rest.reverse := by
  have hall : ∀ x ∈ rest.reverse, (x != '/') = true := by
    intro x hx
    simp only [List.mem_reverse] at hx
    simp only [bne_iff_ne, ne_eq]
    intro h; exact hrest (h ▸ hx)
  have hslash : ((('/' : Char)) != '/') = false := by decide
  rw [List.reverse_append, List.reverse_cons, List.append_assoc,
    List.singleton_append]
  exact takeWhile_append_stop hall hslash

theorem pysplit_headRev (dir rest : List Char) :
    (dir ++ '/' :: rest).reverse.drop rest.reverse.length = '/' :: dir.reverse := by
  rw [List.reverse_append, List.reverse_cons, List.append_assoc,
    List.singleton_append]
  exact List.drop_left _ _

/-- `pysplit` on a path of the form `dir ++ "/" ++ rest` with `rest`
slash-free and `dir` not ending in a slash. -/
theorem pysplit_structured (dir rest : List Char)
    (hdir : dir.getLast? ≠ some '/')
    (hrest : '/' ∉ rest) :
    pysplit (dir ++ '/' :: rest) = (if dir = [] then ['/'] else dir, rest) := by
  simp only [pysplit, pysplit_tailRev dir rest hrest, pysplit_headRev dir rest,
    List.reverse_reverse, List.reverse_cons]
  by_cases hd : dir = []
  · subst hd
    simp
  · have hne : dir.reverse ≠ [] := by simpa using hd
    obtain ⟨c, t, hc⟩ : ∃ c t, dir.reverse = c :: t := by
      cases h : dir.reverse with
      | nil => exact absurd h hne
      | cons c t => exact ⟨c, t, rfl⟩
    have hcval : c ≠ '/' := by
      intro hcc
      apply hdir
      rw [← List.head?_reverse, hc, hcc]
      rfl
    have hcmem : c ∈ dir := by
      rw [← List.mem_reverse, hc]
      simp
    have hany : ((dir ++ ['/']).any fun c => c != '/') = true := by
      simp only [List.any_eq_true]
      exact ⟨c, by simp [hcmem], by simpa using hcval⟩
    rw [if_pos hany, if_neg hd]
    have hrev : (dir ++ ['/']).reverse = '/' :: dir.reverse := by simp
    rw [hrev, hc]
    have hdw : List.dropWhile (fun c => c == '/') ('/' :: c :: t) = c :: t := by
      simp only [List.dropWhile_cons]
      have h2 : (c == '/') = false := by simpa using hcval
      simp [h2]
    rw [hdw, ← hc, List.reverse_reverse]

/-- `pysplitext` on a filename of the form `name ++ "." ++ ext` with a
dot-free, slash-free extension and a slash-free name containing at least
one non-dot character. -/
theorem pysplitext_structured (name ext : List Char)
    (hn1 : '/' ∉ name) (hn2 : ∃ c ∈ name, c ≠ '.')
    (he1 : '/' ∉ ext) (he2 : '.' ∉ ext) :
    pysplitext (name ++ '.' :: ext) = (name, '.' :: ext) := by
  have hall : ∀ x ∈ ext.reverse, ((x != '.') && (x != '/')) = true := by
    intro x hx
    simp only [List.mem_reverse] at hx
    have h1 : x ≠ '.' := fun h => he2 (h ▸ hx)
    have h2 : x ≠ '/' := fun h => he1 (h ▸ hx)
    simp [h1, h2]
  have hdot : (((('.' : Char)) != '.') && ((('.' : Char)) != '/')) = false := by decide
  have htw : (name ++ '.' :: ext).reverse.takeWhile
      (fun c => c != '.' && c != '/') = ext.reverse := by
    rw [List.reverse_append, List.reverse_cons, List.append_assoc,
      List.singleton_append]
    exact takeWhile_append_stop hall hdot
  have hdr : (name ++ '.' :: ext).reverse.drop ext.reverse.length =
      '.' :: name.reverse := by
    rw [List.reverse_append, List.reverse_cons, List.append_assoc,
      List.singleton_append]
    exact List.drop_left _ _
  simp only [pysplitext, htw, hdr, List.head?_cons, List.tail_cons,
    List.reverse_reverse]
  rw [if_pos trivial]
  have hnall : ∀ x ∈ name.reverse, (x != '/') = true := by
    intro x hx
    simp only [List.mem_reverse] at hx
    simp only [bne_iff_ne, ne_eq]
    intro h; exact hn1 (h ▸ hx)
  rw [takeWhile_all hnall]
  have hany : name.reverse.any (fun c => c != '.') = true := by
    obtain ⟨c, hc, hcne⟩ := hn2
    simp only [List.any_eq_true]
    exact ⟨c, by simpa using hc, by simpa using hcne⟩
  rw [if_pos hany]

/-- C1: for an input path of the form `dir/name.ext` (slash-free name with
a non-dot character, slash- and dot-free extension, `dir` not ending in a
slash), `UnitexProcessor.open` derives the normalized-text path
`dir/name.snt` and the working directory `dir/name_snt`; in particular
`open("corpus/foo.txt")` derives exactly `corpus/foo.snt` and
`corpus/foo_snt`. -/
theorem open_derives_snt_paths (dir name ext : List Char)
    (hdir : dir.getLast? ≠ some '/')
    (hn1 : '/' ∉ name) (hn2 : ∃ c ∈ name, c ≠ '.')
    (he1 : '/' ∉ ext) (he2 : '.' ∉ ext) :
    openDerive (dir ++ '/' :: (name ++ '.' :: ext)) =
      { txt := dir ++ '/' :: (name ++ '.' :: ext)
        snt := dir ++ '/' :: (name ++ (".snt").toList)
        wdir := dir ++ '/' :: (name ++ ("_snt").toList) } ∧
    openDerive ("corpus/foo.txt").toList =
      { txt := ("corpus/foo.txt").toList
        snt := ("corpus/foo.snt").toList
        wdir := ("corpus/foo_snt").toList } := by
  constructor
  · have hrest : '/' ∉ name ++ '.' :: ext := by
      intro h
      rcases List.mem_append.mp h with h | h
      · exact hn1 h
      · rcases List.mem_cons.mp h with h | h
        · exact absurd h.symm (by decide)
        · exact he1 h
    have hsp := pysplit_structured dir (name ++ '.' :: ext) hdir hrest
    have hse := pysplitext_structured name ext hn1 hn2 he1 he2
    have hnhead : ∀ (suf : List Char), (name ++ suf).head? ≠ some '/' := by
      intro suf h
      cases hn : name with
      | nil =>
          obtain ⟨c, hc, hcne⟩ := hn2
          rw [hn] at hc
          exact absurd hc (by simp)
      | cons a t =>
          rw [hn] at h
          simp only [List.cons_append, List.head?_cons, Option.some_inj] at h
          exact hn1 (by rw [hn, h]; simp)
    simp only [openDerive, hsp]
    by_cases hd : dir = []
    · subst hd
      rw [if_pos rfl]
      simp only [hse]
      simp only [pyjoin]
      rw [if_neg (hnhead _), if_neg (hnhead _)]
      have hl : (['/'] : List Char) = [] ∨ (['/'] : List Char).getLast? = some '/' := by
        right; rfl
      rw [if_pos hl, if_pos hl]
      simp
    · rw [if_neg hd]
      simp only [hse]
      simp only [pyjoin]
      rw [if_neg (hnhead _), if_neg (hnhead _)]
      have hl : ¬(dir = [] ∨ dir.getLast? = some '/') := by
        rintro (h | h)
        · exact hd h
        · exact hdir h
      rw [if_neg hl, if_neg hl]
  · decide

/-- C1 witness: the derivation theorem applied to the concrete path
`corpus/foo.txt`. -/
theorem open_derives_snt_paths_witness :
    openDerive (("corpus").toList ++ '/' :: (("foo").toList ++ '.' :: ("txt").toList)) =
      { txt := ("corpus").toList ++ '/' :: (("foo").toList ++ '.' :: ("txt").toList)
        snt := ("corpus").toList ++ '/' :: (("foo").toList ++ (".snt").toList)
        wdir := ("corpus").toList ++ '/' :: (("foo").toList ++ ("_snt").toList) } :=
  (open_derives_snt_paths ("corpus").toList ("foo").toList ("txt").toList
    (by decide) (by decide) (by decide) (by decide) (by decide)).1

/-- The index-line regex attempt succeeds on a line made of a nonspace
token, one space, a second nonspace token, and optionally one further
space followed by arbitrary trailing text. -/
theorem indMatch_tokens (t1 t2 : List Char) (r : Option (List Char))
    (h1 : t1 ≠ []) (h1w : ∀ c ∈ t1, pySpace c = false)
    (h2 : t2 ≠ []) (h2w : ∀ c ∈ t2, pySpace c = false) :
    indMatch (t1 ++ ' ' :: (t2 ++ r.elim [] (fun s => ' ' :: s))) = some (t1, t2, r) := by
  have hsp : (!(pySpace ' ')) = false := by decide
  have h1w' : ∀ x ∈ t1, (!(pySpace x)) = true := fun x hx => by simp [h1w x hx]
  have h2w' : ∀ x ∈ t2, (!(pySpace x)) = true := fun x hx => by simp [h2w x hx]
  obtain ⟨c, t1', rfl⟩ : ∃ c t, t1 = c :: t := by
    cases t1 with
    | nil => exact absurd rfl h1
    | cons c t => exact ⟨c, t, rfl⟩
  obtain ⟨c2, t2', rfl⟩ : ∃ c t, t2 = c :: t := by
    cases t2 with
    | nil => exact absurd rfl h2
    | cons c t => exact ⟨c, t, rfl⟩
  have hhead : ((c :: t1') ++ ' ' :: ((c2 :: t2') ++ r.elim [] (fun s => ' ' :: s))).head?.elim
      true pySpace = false := by
    simp only [List.cons_append, List.head?_cons, Option.elim]
    exact h1w c (by simp)
  have hTW : ((c :: t1') ++ ' ' :: ((c2 :: t2') ++ r.elim [] (fun s => ' ' :: s))).takeWhile
      (fun x => !(pySpace x)) = c :: t1' := takeWhile_append_stop h1w' hsp
  have hDW : ((c :: t1') ++ ' ' :: ((c2 :: t2') ++ r.elim [] (fun s => ' ' :: s))).dropWhile
      (fun x => !(pySpace x)) = ' ' :: ((c2 :: t2') ++ r.elim [] (fun s => ' ' :: s)) :=
    dropWhile_append_stop h1w' hsp
  simp only [indMatch, hhead, Bool.false_eq_true, if_false, hTW, hDW,
    List.head?_cons, ne_eq, Option.some.injEq, not_true_eq_false, if_false,
    List.tail_cons, if_neg]
  have hhead2 : ((c2 :: t2') ++ r.elim [] (fun s => ' ' :: s)).head?.elim true pySpace
      = false := by
    simp only [List.cons_append, List.head?_cons, Option.elim]
    exact h2w c2 (by simp)
  rw [hhead2]
  simp only [Bool.false_eq_true, if_false]
  cases r with
  | none =>
      simp only [Option.elim, List.append_nil]
      rw [takeWhile_all h2w', dropWhile_all h2w']
      simp
  | some s =>
      simp only [Option.elim]
      rw [takeWhile_append_stop h2w' hsp, dropWhile_append_stop h2w' hsp]
      simp

/-- The leftmost regex search finds the match at position zero on a
well-formed index line. -/
theorem searchInd_tokens (t1 t2 : List Char) (r : Option (List Char))
    (h1 : t1 ≠ []) (h1w : ∀ c ∈ t1, pySpace c = false)
    (h2 : t2 ≠ []) (h2w : ∀ c ∈ t2, pySpace c = false) :
    searchInd (t1 ++ ' ' :: (t2 ++ r.elim [] (fun s => ' ' :: s))) = some (t1, t2, r) := by
  have hm := indMatch_tokens t1 t2 r h1 h1w h2 h2w
  obtain ⟨c, t1', rfl⟩ : ∃ c t, t1 = c :: t := by
    cases t1 with
    | nil => exact absurd rfl h1
    | cons c t => exact ⟨c, t, rfl⟩
  rw [List.cons_append]
  rw [List.cons_append] at hm
  simp only [searchInd]
  rw [hm]
  rfl

/-- C2 (amended): `UnitexProcessor.iter` skips the header line and, for
each subsequent non-blank line, yields the groups of the first match of
the pattern nonspace-run, one space, nonspace-run, optionally one more
space and the rest of the line; on lines whose first two tokens are
separated by a single space this gives first token = start offset,
second token = end offset, text after the following single space = match
text (absent when only two tokens are present); the stated merge example
yields exactly the two records, and the ignore example yields match
text the empty string. -/
theorem iter_regex_parses_lines (t1 t2 : List Char) (r : Option (List Char))
    (h1 : t1 ≠ []) (h1w : ∀ c ∈ t1, pySpace c = false)
    (h2 : t2 ≠ []) (h2w : ∀ c ∈ t2, pySpace c = false) :
    searchInd (t1 ++ ' ' :: (t2 ++ r.elim [] (fun s => ' ' :: s))) = some (t1, t2, r) ∧
    iterMatches OUTPUT_MODE_MERGE (("abc\n0 5 Hello\n6 11 World").toList) =
      some [{ offsets := (("0").toList, ("5").toList), matched := some (("Hello").toList) },
            { offsets := (("6").toList, ("11").toList), matched := some (("World").toList) }] ∧
    iterMatches OUTPUT_MODE_IGNORE (("abc\n0 5 Hello\n6 11 World").toList) =
      some [{ offsets := (("0").toList, ("5").toList), matched := some [] },
            { offsets := (("6").toList, ("11").toList), matched := some [] }] :=
  ⟨searchInd_tokens t1 t2 r h1 h1w h2 h2w, by decide, by decide⟩

/-- C2 witness: the amended parsing theorem applied to the concrete line
`0 5 Hello`. -/
theorem iter_regex_parses_lines_witness :
    searchInd (("0").toList ++ ' ' ::
        (("5").toList ++ (some (("Hello").toList)).elim [] (fun s => ' ' :: s))) =
      some (("0").toList, ("5").toList, some (("Hello").toList)) :=
  (iter_regex_parses_lines ("0").toList ("5").toList (some (("Hello").toList))
    (by decide) (by decide) (by decide) (by decide)).1

/-- C2 counterexample: on the index content with header `abc` and single
body line `0  5 Hello` (two spaces between the first two tokens), a
whitespace-delimited parse would give offsets `(0, 5)` and match text
`Hello`, but `iter` yields offsets `(5, Hello)` with no match text. -/
theorem iter_not_whitespace_delimited :
    iterMatches OUTPUT_MODE_MERGE (("abc\n0  5 Hello").toList) =
      some [{ offsets := (("5").toList, ("Hello").toList), matched := none }] ∧
    iterMatches OUTPUT_MODE_MERGE (("abc\n0  5 Hello").toList) ≠
      some [{ offsets := (("0").toList, ("5").toList),
              matched := some (("Hello").toList) }] := by
  exact ⟨by decide, by decide⟩

/-- The source `escape` (a fold of the single-rule list) agrees with the
spec-side characterization that replaces only the `&` character. -/
theorem escape_eq_spec (s : List Char) : escape s = escapeAmpSpec s := rfl

/-- C4: for every grammar path and merged-concordance body, the xml=True
branch of `tag` writes exactly the fixed XML declaration, the `TAGFILE`
element with the grammar path in the query attribute, the body with only
`&` replaced by `&amp;`, and the closing tag, and afterwards deletes the
temporary merge file; in particular body `A & B` produces output body
`A &amp; B`. -/
theorem tag_xml_envelope (virt : Bool) (wdir grammar outputPath body : List Char) :
    tagXmlRun virt wdir grammar outputPath body =
      [FileOp.writeFile outputPath (tagXmlSpecDoc grammar body),
       FileOp.removeFile ((if virt then vfsMark else []) ++
         pyjoin wdir (("concord-merge-temp.txt").toList))] ∧
    escape (("A & B").toList) = ("A &amp; B").toList ∧
    tagXmlRun false (("c/f_snt").toList) (("g.fst2").toList) (("out.xml").toList)
        (("A & B").toList) =
      [FileOp.writeFile (("out.xml").toList)
         ((("<?xml version=\x271.0\x27 encoding=\x27UTF-8\x27?>\n").toList) ++
          (("<TAGFILE query=\x27g.fst2\x27>\n").toList) ++
          (("A &amp; B").toList) ++
          (("</TAGFILE>\n").toList)),
       FileOp.removeFile (("c/f_snt/concord-merge-temp.txt").toList)] := by
  refine ⟨?_, by decide, by decide⟩
  simp only [tagXmlRun, tagXmlSpecDoc, escape_eq_spec, List.append_assoc]

/-- C6: for every backing store and path, `exists` on a path carrying
the virtual marker holds exactly when the path is a member of its own
directory listing, and on any other path equals the disk existence
check. -/
theorem exists_virtual_iff_member (gw : Gateway) (p : List Char) :
    (vfsMark.isPrefixOf p = true → (existsPath gw p = true ↔ p ∈ gw.lsDir p)) ∧
    (vfsMark.isPrefixOf p = false → existsPath gw p = gw.diskExists p) := by
  constructor
  · intro h
    simp [existsPath, h]
  · intro h
    simp [existsPath, h]

/-- C6 witness: the exists characterization applied to one virtual and
one disk path over concrete backing stores. -/
theorem exists_virtual_iff_member_witness :
    (existsPath ⟨fun _ => false, fun q => [q]⟩ (("$:a").toList) = true ↔
      ("$:a").toList ∈ [("$:a").toList]) ∧
    existsPath ⟨fun _ => true, fun q => [q]⟩ (("a").toList) =
      (⟨fun _ => true, fun q => [q]⟩ : Gateway).diskExists (("a").toList) := by
  constructor
  · have h := (exists_virtual_iff_member ⟨fun _ => false, fun q => [q]⟩
      (("$:a").toList)).1 (by decide)
    exact h
  · exact (exists_virtual_iff_member ⟨fun _ => true, fun q => [q]⟩
      (("a").toList)).2 (by decide)

/-- C7: for every handle state, opening while a file is already open
fails with the usage error, writing fails whenever the mode is neither
`w` nor `a`, and reading fails whenever the mode is neither `r` nor
`b`. -/
theorem ufile_usage_errors (f : UFile) (file : List Char)
    (mode : Option (List Char)) (b : Bool) :
    (f.path ≠ none → ufOpen f file mode b = .error .alreadyOpen) ∧
    (f.mode ≠ some (("w").toList) → f.mode ≠ some (("a").toList) →
      (ufWrite f).isOk = false) ∧
    (f.mode ≠ some (("r").toList) → f.mode ≠ some (("b").toList) →
      (ufRead f).isOk = false) := by
  refine ⟨?_, ?_, ?_⟩
  · intro h
    simp [ufOpen, h]
  · intro hw ha
    by_cases hp : f.path = none
    · simp [ufWrite, hp, Except.isOk, Except.toBool]
    · have h : ¬(f.mode = some ['w'] ∨ f.mode = some ['a']) := by
        rintro (h | h)
        exacts [hw h, ha h]
      simp [ufWrite, hp, h, Except.isOk, Except.toBool]
  · intro hr hb
    by_cases hp : f.path = none
    · simp [ufRead, hp, Except.isOk, Except.toBool]
    · have h : ¬(f.mode = some ['r'] ∨ f.mode = some ['b']) := by
        rintro (h | h)
        exacts [hr h, hb h]
      simp [ufRead, hp, h, Except.isOk, Except.toBool]

/-- C7 witness: the usage errors observed on concrete handle states. -/
theorem ufile_usage_errors_witness :
    (ufOpen ⟨some (("f.txt").toList), some (("r").toList), false⟩
        (("g.txt").toList) none false = .error .alreadyOpen) ∧
    (ufWrite ⟨some (("f.txt").toList), some (("r").toList), false⟩).isOk = false ∧
    (ufRead ⟨some (("f.txt").toList), some (("w").toList), false⟩).isOk = false :=
  ⟨(ufile_usage_errors ⟨some (("f.txt").toList), some (("r").toList), false⟩
      (("g.txt").toList) none false).1 (by decide),
   (ufile_usage_errors ⟨some (("f.txt").toList), some (("r").toList), false⟩
      (("g.txt").toList) none false).2.1 (by decide) (by decide),
   (ufile_usage_errors ⟨some (("f.txt").toList), some (("w").toList), false⟩
      (("g.txt").toList) none false).2.2 (by decide) (by decide)⟩

/-- C5: whenever the match mode is outside {longest, shortest} or the
output mode is outside {ignore, merge, replace}, the locate primitive
and the iter and tag entry points all fail with a usage error and
perform no external engine call. -/
theorem locate_validates_modes (virt : Bool) (res : Resources)
    (wdir mm om : List Char) (lk ix : Bool)
    (h : (mm ≠ MATCH_MODE_LONGEST ∧ mm ≠ MATCH_MODE_SHORTEST) ∨
         (om ≠ OUTPUT_MODE_IGNORE ∧ om ≠ OUTPUT_MODE_MERGE ∧ om ≠ OUTPUT_MODE_REPLACE)) :
    ((locateRun virt res wdir mm om lk ix).1 = [] ∧
      (locateRun virt res wdir mm om lk ix).2.isOk = false) ∧
    ((iterLocate virt res wdir mm om lk ix).1 = [] ∧
      (iterLocate virt res wdir mm om lk ix).2.isOk = false) ∧
    ((tagLocate virt res wdir mm om lk ix).1 = [] ∧
      (tagLocate virt res wdir mm om lk ix).2.isOk = false) := by
  have hloc : (locateRun virt res wdir mm om lk ix).1 = [] ∧
      (locateRun virt res wdir mm om lk ix).2.isOk = false := by
    cases halpha : res.alphabet with
    | none => simp [locateRun, halpha, Except.isOk, Except.toBool]
    | some a =>
        rcases h with ⟨h1, h2⟩ | ⟨h1, h2, h3⟩
        · have hc : ¬(mm = MATCH_MODE_LONGEST ∨ mm = MATCH_MODE_SHORTEST) := by
            rintro (hh | hh)
            exacts [h1 hh, h2 hh]
          simp [locateRun, halpha, hc, Except.isOk, Except.toBool]
        · by_cases hmm : mm = MATCH_MODE_LONGEST ∨ mm = MATCH_MODE_SHORTEST
          · have hc : ¬(om = OUTPUT_MODE_IGNORE ∨ om = OUTPUT_MODE_MERGE ∨
                om = OUTPUT_MODE_REPLACE) := by
              rintro (hh | hh | hh)
              exacts [h1 hh, h2 hh, h3 hh]
            simp [locateRun, halpha, hmm, hc, Except.isOk, Except.toBool]
          · simp [locateRun, halpha, hmm, Except.isOk, Except.toBool]
  refine ⟨hloc, ?_, ?_⟩
  · rcases h with ⟨h1, h2⟩ | ⟨h1, h2, h3⟩
    · have hc : ¬(mm = MATCH_MODE_LONGEST ∨ mm = MATCH_MODE_SHORTEST) := by
        rintro (hh | hh)
        exacts [h1 hh, h2 hh]
      simp [iterLocate, hc, Except.isOk, Except.toBool]
    · by_cases hmm : mm = MATCH_MODE_LONGEST ∨ mm = MATCH_MODE_SHORTEST
      · have hc : ¬(om = OUTPUT_MODE_MERGE ∨ om = OUTPUT_MODE_IGNORE ∨
            om = OUTPUT_MODE_REPLACE) := by
          rintro (hh | hh | hh)
          exacts [h2 hh, h1 hh, h3 hh]
        simp [iterLocate, hmm, hc, Except.isOk, Except.toBool]
      · simp [iterLocate, hmm, Except.isOk, Except.toBool]
  · rcases h with ⟨h1, h2⟩ | ⟨h1, h2, h3⟩
    · have hc : ¬(mm = MATCH_MODE_LONGEST ∨ mm = MATCH_MODE_SHORTEST) := by
        rintro (hh | hh)
        exacts [h1 hh, h2 hh]
      simp [tagLocate, hc, Except.isOk, Except.toBool]
    · by_cases hmm : mm = MATCH_MODE_LONGEST ∨ mm = MATCH_MODE_SHORTEST
      · have hc : ¬(om = OUTPUT_MODE_IGNORE ∨ om = OUTPUT_MODE_MERGE ∨
            om = OUTPUT_MODE_REPLACE) := by
          rintro (hh | hh | hh)
          exacts [h1 hh, h2 hh, h3 hh]
        simp [tagLocate, hmm, hc, Except.isOk, Except.toBool]
      · simp [tagLocate, hmm, Except.isOk, Except.toBool]

/-- C5 witness: the validation theorem applied to the concrete
unrecognized mode value `bogus` for both options. -/
theorem locate_validates_modes_witness :
    ((locateRun false ⟨some (("a.txt").toList), none, none, []⟩ (("c/f_snt").toList)
        (("bogus").toList) (("bogus").toList) true true).1 = [] ∧
      (locateRun false ⟨some (("a.txt").toList), none, none, []⟩ (("c/f_snt").toList)
        (("bogus").toList) (("bogus").toList) true true).2.isOk = false) ∧
    ((iterLocate false ⟨some (("a.txt").toList), none, none, []⟩ (("c/f_snt").toList)
        (("bogus").toList) (("bogus").toList) true true).1 = [] ∧
      (iterLocate false ⟨some (("a.txt").toList), none, none, []⟩ (("c/f_snt").toList)
        (("bogus").toList) (("bogus").toList) true true).2.isOk = false) ∧
    ((tagLocate false ⟨some (("a.txt").toList), none, none, []⟩ (("c/f_snt").toList)
        (("bogus").toList) (("bogus").toList) true true).1 = [] ∧
      (tagLocate false ⟨some (("a.txt").toList), none, none, []⟩ (("c/f_snt").toList)
        (("bogus").toList) (("bogus").toList) true true).2.isOk = false) :=
  locate_validates_modes false ⟨some (("a.txt").toList), none, none, []⟩
    (("c/f_snt").toList) (("bogus").toList) (("bogus").toList) true true
    (Or.inl ⟨by decide, by decide⟩)

/-- C3 counterexample: with a session already open on `corpus/foo.txt`,
a second `open` on `corpus/bar.txt` succeeds and stages the new corpus
instead of failing. -/
theorem open_twice_succeeds :
    (openRun false
      ⟨some (("corpus/foo.txt").toList), some (("corpus/foo.snt").toList),
       some (("corpus/foo_snt").toList)⟩
      ⟨some (("alphabet.txt").toList), none, none, []⟩
      ⟨true, true, true, true, true⟩
      (("corpus/bar.txt").toList) [] false true).result = .ok () ∧
    (openRun false
      ⟨some (("corpus/foo.txt").toList), some (("corpus/foo.snt").toList),
       some (("corpus/foo_snt").toList)⟩
      ⟨some (("alphabet.txt").toList), none, none, []⟩
      ⟨true, true, true, true, true⟩
      (("corpus/bar.txt").toList) [] false true).state =
      ⟨some (("corpus/bar.txt").toList), some (("corpus/bar.snt").toList),
       some (("corpus/bar_snt").toList)⟩ := by
  exact ⟨by decide, by decide⟩

/-- The original-text component of the path derivation is the input
path itself. -/
theorem openDerive_txt (p : List Char) : (openDerive p).txt = p := rfl

/-- C3 (amended): `open` performs no already-open check: its outcome is
independent of the previous session state, and (with the always-run
normalization stage succeeding and no optional stage selected) a second
`open` succeeds and overwrites the stored session paths with the ones
derived from the new corpus path. -/
theorem open_ignores_prior_session (prev prev2 : PState) (virt : Bool)
    (res : Resources) (eng : Engine) (path mode : List Char)
    (tagged dod : Bool) :
    openRun virt prev res eng path mode tagged dod =
      openRun virt prev2 res eng path mode tagged dod ∧
    (eng.normalizeOk = true →
      (openRun virt prev res eng path [] tagged dod).result = .ok () ∧
      (openRun virt prev res eng path [] tagged dod).state =
        ⟨some (if virt then vfsMark ++ path else path),
         some (if virt then vfsMark ++ (openDerive path).snt else (openDerive path).snt),
         some (openDerive path).wdir⟩) := by
  refine ⟨rfl, fun h1 => ⟨?_, ?_⟩⟩
  · simp only [openRun]
    simp [runStages, h1]
  · simp only [openRun, openDerive_txt]

/-- C3 witness: the amended theorem applied to a concrete already-open
state and a second corpus path. -/
theorem open_ignores_prior_session_witness :
    openRun false
      ⟨some (("corpus/foo.txt").toList), some (("corpus/foo.snt").toList),
       some (("corpus/foo_snt").toList)⟩
      ⟨some (("alphabet.txt").toList), none, none, []⟩
      ⟨true, true, true, true, true⟩ (("corpus/bar.txt").toList) [] false true =
    openRun false ⟨none, none, none⟩
      ⟨some (("alphabet.txt").toList), none, none, []⟩
      ⟨true, true, true, true, true⟩ (("corpus/bar.txt").toList) [] false true ∧
    (openRun false
      ⟨some (("corpus/foo.txt").toList), some (("corpus/foo.snt").toList),
       some (("corpus/foo_snt").toList)⟩
      ⟨some (("alphabet.txt").toList), none, none, []⟩
      ⟨true, true, true, true, true⟩ (("corpus/bar.txt").toList) [] false true).result =
      .ok () :=
  ⟨(open_ignores_prior_session
      ⟨some (("corpus/foo.txt").toList), some (("corpus/foo.snt").toList),
       some (("corpus/foo_snt").toList)⟩ ⟨none, none, none⟩ false
      ⟨some (("alphabet.txt").toList), none, none, []⟩
      ⟨true, true, true, true, true⟩ (("corpus/bar.txt").toList) [] false true).1,
   ((open_ignores_prior_session
      ⟨some (("corpus/foo.txt").toList), some (("corpus/foo.snt").toList),
       some (("corpus/foo_snt").toList)⟩ ⟨none, none, none⟩ false
      ⟨some (("alphabet.txt").toList), none, none, []⟩
      ⟨true, true, true, true, true⟩ (("corpus/bar.txt").toList) [] false true).2
      (by decide)).1⟩

/-- C8: after an `open` with virtualization the clean pass lists the
virtual working directory and removes each listed entry, then the staged
normalized virtual file, then the staged original virtual file, then the
working directory; after an `open` without virtualization it removes
only the normalized file and then the working directory. -/
theorem close_clean_removal_order (prev : PState) (res : Resources) (eng : Engine)
    (path mode : List Char) (tagged dod : Bool) (entries : List (List Char)) :
    cleanRun true ((openRun true prev res eng path mode tagged dod).state) entries =
      FileOp.listDir (vfsMark ++ (openDerive path).wdir) ::
        (entries.map FileOp.removeFile ++
          [FileOp.removeFile (vfsMark ++ (openDerive path).snt),
           FileOp.removeFile (vfsMark ++ path),
           FileOp.removeDir (openDerive path).wdir]) ∧
    cleanRun false ((openRun false prev res eng path mode tagged dod).state) entries =
      [FileOp.removeFile (openDerive path).snt,
       FileOp.removeDir (openDerive path).wdir] := by
  have hstv : (openRun true prev res eng path mode tagged dod).state =
      ⟨some (vfsMark ++ path), some (vfsMark ++ (openDerive path).snt),
       some (openDerive path).wdir⟩ := by
    simp only [openRun, openDerive_txt]
    rfl
  have hstd : (openRun false prev res eng path mode tagged dod).state =
      ⟨some path, some ((openDerive path).snt), some ((openDerive path).wdir)⟩ := by
    simp only [openRun, openDerive_txt]
    rfl
  rw [hstv, hstd]
  constructor
  · simp [cleanRun]
  · simp [cleanRun]

/-- C9 counterexample: with one persisted grammar handle, a second
invocation of the teardown repeats the matching free call instead of
being a no-op. -/
theorem free_not_idempotent :
    (freeRun (freeRun ⟨some [(ResKind.grammar, ("g.fst2").toList)]⟩).2).1 =
      [FreeCall.freeFst2 (("g.fst2").toList)] ∧
    (freeRun (freeRun ⟨some [(ResKind.grammar, ("g.fst2").toList)]⟩).2).1 ≠ [] := by
  exact ⟨by decide, by decide⟩

/-- C9 (amended): the teardown releases every tracked handle via the
free operation matching its resource kind, and is a no-op exactly when
nothing was persisted (persistence disabled); but it leaves the tracked
list in place, so a second invocation repeats the same free calls
rather than being a no-op. -/
theorem free_releases_tracked (m : ProcMem) :
    (freeRun m).2 = m ∧
    (freeRun (freeRun m).2).1 = (freeRun m).1 ∧
    (m.persisted = none → (freeRun m).1 = []) ∧
    (∀ k h objs, m.persisted = some objs → (k, h) ∈ objs →
      freeCallOf k h ∈ (freeRun m).1) := by
  have hst : (freeRun m).2 = m := by
    cases hm : m.persisted with
    | none => simp [freeRun, hm]
    | some objs => simp [freeRun, hm]
  refine ⟨hst, by rw [hst], ?_, ?_⟩
  · intro hm
    simp [freeRun, hm]
  · intro k h objs hm hmem
    simp only [freeRun, hm]
    exact List.mem_map_of_mem _ hmem

/-- C9 witness: the amended teardown theorem applied to a persistence
state tracking one grammar and one dictionary handle. -/
theorem free_releases_tracked_witness :
    (freeRun ⟨some [(ResKind.grammar, ("g.fst2").toList),
                    (ResKind.dictionary, ("d.bin").toList)]⟩).2 =
      ⟨some [(ResKind.grammar, ("g.fst2").toList),
             (ResKind.dictionary, ("d.bin").toList)]⟩ ∧
    freeCallOf ResKind.dictionary (("d.bin").toList) ∈
      (freeRun ⟨some [(ResKind.grammar, ("g.fst2").toList),
                      (ResKind.dictionary, ("d.bin").toList)]⟩).1 :=
  ⟨(free_releases_tracked ⟨some [(ResKind.grammar, ("g.fst2").toList),
      (ResKind.dictionary, ("d.bin").toList)]⟩).1,
   (free_releases_tracked ⟨some [(ResKind.grammar, ("g.fst2").toList),
      (ResKind.dictionary, ("d.bin").toList)]⟩).2.2.2 ResKind.dictionary
      (("d.bin").toList) _ rfl (by decide)⟩

/-! Helper lemmas for the working-directory invariant. -/

theorem mark_eq_chars : vfsMark = ['$', ':'] := by decide

theorem mark_prefix_iff (l : List Char) :
    vfsMark <+: l ↔ ∃ t, l = '$' :: ':' :: t := by
  rw [mark_eq_chars]
  constructor
  · rintro ⟨t, ht⟩
    exact ⟨t, ht.symm⟩
  · rintro ⟨t, rfl⟩
    exact ⟨t, rfl⟩

theorem pysplit_snd (p : List Char) :
    (pysplit p).2 = (p.reverse.takeWhile (fun c => c != '/')).reverse := by
  simp only [pysplit]
  split <;> rfl

theorem pysplit_snd_no_slash (p : List Char) : '/' ∉ (pysplit p).2 := by
  rw [pysplit_snd]
  intro hm
  rw [List.mem_reverse] at hm
  have hx := List.mem_takeWhile_imp hm
  simp at hx

theorem pysplit_fst_prefix (p : List Char) : (pysplit p).1 <+: p := by
  have hrev : ∀ l : List Char, l <:+ p.reverse → l.reverse <+: p := by
    intro l hl
    simpa using List.reverse_prefix.mpr hl
  simp only [pysplit]
  split
  · simp only [List.reverse_reverse]
    exact hrev _ ((List.dropWhile_suffix _).trans (List.drop_suffix _ _))
  · exact hrev _ (List.drop_suffix _ _)

theorem pysplit_fst_cases (p : List Char) :
    ((pysplit p).1 =
        ((p.reverse.drop (p.reverse.takeWhile (fun c => c != '/')).length).dropWhile
          (fun c => c == '/')).reverse ∧
      ((p.reverse.drop (p.reverse.takeWhile (fun c => c != '/')).length).reverse.any
        (fun c => c != '/')) = true) ∨
    ((pysplit p).1 =
        (p.reverse.drop (p.reverse.takeWhile (fun c => c != '/')).length).reverse ∧
      ¬((p.reverse.drop (p.reverse.takeWhile (fun c => c != '/')).length).reverse.any
        (fun c => c != '/')) = true) := by
  simp only [pysplit]
  split
  · next hc => exact Or.inl ⟨by rw [List.reverse_reverse], hc⟩
  · next hc => exact Or.inr ⟨rfl, hc⟩

theorem pysplit_empty_head (p : List Char) (h : (pysplit p).1 = []) :
    (pysplit p).2 = p := by
  rw [pysplit_snd]
  rcases pysplit_fst_cases p with ⟨heq, hc⟩ | ⟨heq, hc⟩
  · exfalso
    rw [heq, List.reverse_eq_nil_iff, List.dropWhile_eq_nil_iff] at h
    obtain ⟨x, hx, hxne⟩ := List.any_eq_true.mp hc
    rw [List.mem_reverse] at hx
    have hxx := h x hx
    simp only [beq_iff_eq] at hxx
    simp only [bne_iff_ne, ne_eq] at hxne
    exact hxne hxx
  · rw [heq, List.reverse_eq_nil_iff, List.drop_eq_nil_iff] at h
    have hlen : (p.reverse.takeWhile (fun c => c != '/')).length = p.reverse.length :=
      le_antisymm (List.takeWhile_prefix _).length_le h
    rw [(List.takeWhile_prefix _).eq_of_length hlen, List.reverse_reverse]

theorem pysplitext_fst_prefix (p : List Char) : (pysplitext p).1 <+: p := by
  have hrev : ∀ l : List Char, l <:+ p.reverse → l.reverse <+: p := by
    intro l hl
    simpa using List.reverse_prefix.mpr hl
  simp only [pysplitext]
  split
  · split
    · exact hrev _ ((List.tail_suffix _).trans (List.drop_suffix _ _))
    · exact List.prefix_refl p
  · exact List.prefix_refl p

theorem runStages_base_prefix (base : List FileOp)
    (stages : List (List FileOp × Except (List Char) Unit)) :
    base <+: (runStages base stages).1 := by
  induction stages generalizing base with
  | nil => exact List.prefix_refl base
  | cons s rest ih =>
      simp only [runStages]
      cases hs : s.2 with
      | error e =>
          simp only [hs]
          exact ⟨s.1, rfl⟩
      | ok u =>
          simp only [hs]
          exact (List.prefix_append base s.1).trans (ih (base ++ s.1))

/-- The working directory derived from a path without the virtual
marker never carries the virtual marker itself. -/
theorem openDerive_wdir_no_mark (path : List Char) (h : ¬ vfsMark <+: path) :
    ¬ vfsMark <+: (openDerive path).wdir := by
  intro hcon
  rw [mark_prefix_iff] at hcon
  obtain ⟨t, ht⟩ := hcon
  have hwd : (openDerive path).wdir =
      pyjoin (pysplit path).1
        ((pysplitext (pysplit path).2).1 ++ ("_snt").toList) := rfl
  rw [hwd] at ht
  have hd : (pysplit path).1 <+: path := pysplit_fst_prefix path
  have hnos : '/' ∉ (pysplit path).2 := pysplit_snd_no_slash path
  have hn : (pysplitext (pysplit path).2).1 <+: (pysplit path).2 :=
    pysplitext_fst_prefix _
  have hn' : ('/' : Char) ∉ (pysplitext (pysplit path).2).1 :=
    fun hm => hnos (hn.subset hm)
  have hbh : ((pysplitext (pysplit path).2).1 ++ ("_snt").toList).head? ≠ some '/' := by
    cases hnn : (pysplitext (pysplit path).2).1 with
    | nil => decide
    | cons c cs =>
        simp only [List.cons_append, List.head?_cons, ne_eq, Option.some.injEq]
        intro hcc
        exact hn' (by rw [hnn, hcc]; exact List.mem_cons_self _ _)
  rw [pyjoin, if_neg hbh] at ht
  by_cases hc : (pysplit path).1 = [] ∨ (pysplit path).1.getLast? = some '/'
  · rw [if_pos hc] at ht
    rcases hc with hc | hc
    · rw [hc, List.nil_append] at ht
      have hp2 : (pysplit path).2 = path := pysplit_empty_head path hc
      have hnp : (pysplitext (pysplit path).2).1 <+: path := by
        nth_rewrite 2 [← hp2]
        exact hn
      cases hnn : (pysplitext (pysplit path).2).1 with
      | nil =>
          rw [hnn, List.nil_append] at ht
          simp at ht
      | cons c1 cs =>
          cases hcs : cs with
          | nil =>
              rw [hnn, hcs] at ht
              simp only [List.cons_append, List.nil_append, List.cons.injEq] at ht
              have h2 := ht.2
              simp at h2
          | cons c2 cs2 =>
              rw [hnn, hcs] at ht
              simp only [List.cons_append, List.cons.injEq] at ht
              obtain ⟨h1, h2, _⟩ := ht
              apply h
              rw [mark_prefix_iff]
              obtain ⟨u, hu⟩ := hnp
              rw [hnn, hcs] at hu
              exact ⟨cs2 ++ u, by rw [← hu, h1, h2]; rfl⟩
    · have hdne : (pysplit path).1 ≠ [] := by
        intro hz
        rw [hz] at hc
        simp at hc
      obtain ⟨c1, d', hd1⟩ : ∃ c cs, (pysplit path).1 = c :: cs := by
        cases hk : (pysplit path).1 with
        | nil => exact absurd hk hdne
        | cons c cs => exact ⟨c, cs, rfl⟩
      rw [hd1, List.cons_append] at ht
      simp only [List.cons.injEq] at ht
      obtain ⟨h1, hrest⟩ := ht
      cases hd' : d' with
      | nil =>
          rw [hd1, hd'] at hc
          simp only [List.getLast?_singleton, Option.some_inj] at hc
          rw [h1] at hc
          exact absurd hc (by decide)
      | cons c2 d'' =>
          rw [hd'] at hrest
          simp only [List.cons_append, List.cons.injEq] at hrest
          obtain ⟨h2, _⟩ := hrest
          apply h
          rw [mark_prefix_iff]
          obtain ⟨u, hu⟩ := hd
          rw [hd1, hd'] at hu
          exact ⟨d'' ++ u, by rw [← hu, h1, h2]; rfl⟩
  · rw [if_neg hc] at ht
    push_neg at hc
    obtain ⟨hdne, _⟩ := hc
    obtain ⟨c1, d', hd1⟩ : ∃ c cs, (pysplit path).1 = c :: cs := by
      cases hk : (pysplit path).1 with
      | nil => exact absurd hk hdne
      | cons c cs => exact ⟨c, cs, rfl⟩
    rw [hd1, List.cons_append] at ht
    simp only [List.cons.injEq] at ht
    obtain ⟨h1, hrest⟩ := ht
    cases hd' : d' with
    | nil =>
        rw [hd'] at hrest
        simp only [List.nil_append, List.cons.injEq] at hrest
        exact absurd hrest.1 (by decide)
    | cons c2 d'' =>
        rw [hd'] at hrest
        simp only [List.cons_append, List.cons.injEq] at hrest
        obtain ⟨h2, _⟩ := hrest
        apply h
        rw [mark_prefix_iff]
        obtain ⟨u, hu⟩ := hd
        rw [hd1, hd'] at hu
        exact ⟨d'' ++ u, by rw [← hu, h1, h2]; rfl⟩

/-- C10: for every input path that is itself a disk path (no virtual
marker), the working directory stored by `open` never carries the
virtual-filesystem marker even with virtualization enabled — only the
original-text and normalized-text paths are rewritten into the virtual
namespace — the existence check and creation of the working directory
are disk operations on the unmarked path, and the clean pass ends by
removing the unmarked working directory from the disk. -/
theorem wdir_never_virtual (prev : PState) (res : Resources) (eng : Engine)
    (path mode : List Char) (tagged dod : Bool) (entries : List (List Char))
    (h : ¬ vfsMark <+: path) :
    (openRun true prev res eng path mode tagged dod).state =
      ⟨some (vfsMark ++ path), some (vfsMark ++ (openDerive path).snt),
       some ((openDerive path).wdir)⟩ ∧
    ¬ vfsMark <+: (openDerive path).wdir ∧
    FileOp.checkDisk ((openDerive path).wdir) ∈
      (openRun true prev res eng path mode tagged dod).ops ∧
    (dod = false → FileOp.makeDir ((openDerive path).wdir) ∈
      (openRun true prev res eng path mode tagged dod).ops) ∧
    (cleanRun true ((openRun true prev res eng path mode tagged dod).state)
        entries).getLast? =
      some (FileOp.removeDir ((openDerive path).wdir)) := by
  have hst : (openRun true prev res eng path mode tagged dod).state =
      ⟨some (vfsMark ++ path), some (vfsMark ++ (openDerive path).snt),
       some ((openDerive path).wdir)⟩ := by
    simp only [openRun, openDerive_txt]
    rfl
  have hops : (openRun true prev res eng path mode tagged dod).ops =
      (runStages (openOps0 true path dod) (openStages res eng mode tagged)).1 := rfl
  have hbase : openOps0 true path dod <+:
      (openRun true prev res eng path mode tagged dod).ops := by
    rw [hops]
    exact runStages_base_prefix _ _
  refine ⟨hst, openDerive_wdir_no_mark path h, ?_, ?_, ?_⟩
  · apply hbase.subset
    simp [openOps0]
  · intro hdod
    apply hbase.subset
    simp [openOps0, hdod]
  · rw [hst]
    have hre : cleanRun true
        (⟨some (vfsMark ++ path), some (vfsMark ++ (openDerive path).snt),
          some ((openDerive path).wdir)⟩ : PState) entries =
        (FileOp.listDir (vfsMark ++ (openDerive path).wdir) ::
          (entries.map FileOp.removeFile ++
            [FileOp.removeFile (vfsMark ++ (openDerive path).snt),
             FileOp.removeFile (vfsMark ++ path)])) ++
          [FileOp.removeDir ((openDerive path).wdir)] := by
      simp [cleanRun]
    rw [hre, List.getLast?_concat]

/-- C10 witness: the invariant applied to the concrete disk path
`corpus/foo.txt` with virtualization enabled. -/
theorem wdir_never_virtual_witness :
    (openRun true ⟨none, none, none⟩ ⟨none, none, none, []⟩
        ⟨true, true, true, true, true⟩ (("corpus/foo.txt").toList) [] false false).state =
      ⟨some (vfsMark ++ (("corpus/foo.txt").toList)),
       some (vfsMark ++ (openDerive (("corpus/foo.txt").toList)).snt),
       some ((openDerive (("corpus/foo.txt").toList)).wdir)⟩ ∧
    ¬ vfsMark <+: (openDerive (("corpus/foo.txt").toList)).wdir ∧
    FileOp.checkDisk ((openDerive (("corpus/foo.txt").toList)).wdir) ∈
      (openRun true ⟨none, none, none⟩ ⟨none, none, none, []⟩
        ⟨true, true, true, true, true⟩ (("corpus/foo.txt").toList) [] false false).ops ∧
    (false = false → FileOp.makeDir ((openDerive (("corpus/foo.txt").toList)).wdir) ∈
      (openRun true ⟨none, none, none⟩ ⟨none, none, none, []⟩
        ⟨true, true, true, true, true⟩ (("corpus/foo.txt").toList) [] false false).ops) ∧
    (cleanRun true ((openRun true ⟨none, none, none⟩ ⟨none, none, none, []⟩
        ⟨true, true, true, true, true⟩ (("corpus/foo.txt").toList) [] false false).state)
        []).getLast? =
      some (FileOp.removeDir ((openDerive (("corpus/foo.txt").toList)).wdir)) :=
  wdir_never_virtual ⟨none, none, none⟩ ⟨none, none, none, []⟩
    ⟨true, true, true, true, true⟩ (("corpus/foo.txt").toList) [] false false []
    (by decide)

end Unitex
